import Mathlib

/-!
Verification of the stereoscopic frame-conversion engine of `vr-3d-player`.

The definitions below are a shallow embedding of the TypeScript sources
`src/hooks/use-video-frame-processor.ts` and `src/hooks/use-video-picker.ts`:
JavaScript numbers are modelled as exact rationals (reals for the one
transcendental formula), `Uint8Array` buffers as functions from byte index to
byte value, JavaScript `Map`s as insertion-ordered association lists, and the
stateful async functions as explicit state-passing functions whose abort
signals and external collaborators are parameters.
-/

/-- JavaScript `Math.round` on an exact rational input: round half toward
positive infinity, i.e. `⌊q + 1/2⌋`. -/
def jsRound (q : ℚ) : ℤ := (q + 1/2).floor

/-- JavaScript `Math.ceil` on an exact rational input. -/
def jsCeil (q : ℚ) : ℤ := -(-q).floor

theorem ratFloor_eq_floor (q : ℚ) : q.floor = ⌊q⌋ := by
  rw [Rat.floor_def', Rat.floor_def]

theorem jsRound_eq_floor (q : ℚ) : jsRound q = ⌊q + 1/2⌋ := by
  rw [jsRound, ratFloor_eq_floor]

theorem jsCeil_eq_ceil (q : ℚ) : jsCeil q = ⌈q⌉ := by
  rw [jsCeil, ratFloor_eq_floor, Int.floor_neg, neg_neg]

/-! ## Sampling planner (`optimizeFrameExtraction`) -/

/-- Result record of `optimizeFrameExtraction`. -/
structure SamplingPlan where
  samplingRate : ℤ
  effectiveFrames : ℤ
  estimatedMemory : ℚ

/-- Embedding of `optimizeFrameExtraction(videoSize, duration, fps)` from
`src/hooks/use-video-frame-processor.ts` (lines 290-309). -/
def optimizeFrameExtraction (videoSize duration fps : ℚ) : SamplingPlan :=
  let totalFrames : ℤ := jsRound (duration * fps)
  let estimatedMemoryPerFrame : ℤ := 1920 * 1080 * 4
  let totalMemory : ℤ := totalFrames * estimatedMemoryPerFrame
  let maxMemory : ℤ := 500 * 1024 * 1024
  let samplingRate : ℤ := max 1 (jsCeil ((totalMemory : ℚ) / (maxMemory : ℚ)))
  { samplingRate := samplingRate
    effectiveFrames := jsCeil ((totalFrames : ℚ) / (samplingRate : ℚ))
    estimatedMemory := ((totalMemory : ℚ) / (samplingRate : ℚ)) / (1024 * 1024) }

/-- C3: the planner computes
`samplingRate = max(1, ceil(round(duration*fps) * 1920*1080*4 / (500*1024*1024)))`
and `effectiveFrames = ceil(round(duration*fps) / samplingRate)` exactly for
every duration and fps; for a 100 MiB, 60 s, 30 fps video it returns
`totalFrames = 1800`, `samplingRate = 29`, `effectiveFrames = 63`, with an
estimated memory figure strictly below 500 MiB. -/
theorem optimizeFrameExtraction_formulas_and_scenario :
    (∀ videoSize duration fps : ℚ,
      (optimizeFrameExtraction videoSize duration fps).samplingRate
          = max 1 ⌈((jsRound (duration * fps) : ℚ) * (1920 * 1080 * 4)) / (500 * 1024 * 1024)⌉ ∧
      (optimizeFrameExtraction videoSize duration fps).effectiveFrames
          = ⌈(jsRound (duration * fps) : ℚ)
              / ((optimizeFrameExtraction videoSize duration fps).samplingRate : ℚ)⌉) ∧
    jsRound ((60 : ℚ) * 30) = 1800 ∧
    (optimizeFrameExtraction (100 * 1024 * 1024) 60 30).samplingRate = 29 ∧
    (optimizeFrameExtraction (100 * 1024 * 1024) 60 30).effectiveFrames = 63 ∧
    (optimizeFrameExtraction (100 * 1024 * 1024) 60 30).estimatedMemory < 500 := by
  have hround : jsRound ((60 : ℚ) * 30) = 1800 := by
    rw [jsRound_eq_floor, Int.floor_eq_iff]
    norm_num
  have hceil : jsCeil (((1800 * (1920 * 1080 * 4) : ℤ) : ℚ) / ((500 * 1024 * 1024 : ℤ) : ℚ)) = 29 := by
    rw [jsCeil_eq_ceil, Int.ceil_eq_iff]
    norm_num
  have hmax : ((1 : ℤ) ⊔ 29) = 29 := by
    rw [sup_eq_max]
    omega
  have hrate : (optimizeFrameExtraction (100 * 1024 * 1024) 60 30).samplingRate = 29 := by
    simp only [optimizeFrameExtraction, hround, hceil, hmax]
  have heff : (optimizeFrameExtraction (100 * 1024 * 1024) 60 30).effectiveFrames = 63 := by
    simp only [optimizeFrameExtraction, hround, hceil, hmax]
    rw [jsCeil_eq_ceil, Int.ceil_eq_iff]
    norm_num
  refine ⟨?_, hround, hrate, heff, ?_⟩
  · intro videoSize duration fps
    refine ⟨?_, ?_⟩
    · simp only [optimizeFrameExtraction, jsCeil_eq_ceil]
      norm_num
    · simp only [optimizeFrameExtraction, jsCeil_eq_ceil]
  · simp only [optimizeFrameExtraction, hround, hceil, hmax]
    norm_num

/-- C9: the sampling plan does not depend on the video byte size — two runs on
the same duration and fps but different sizes return identical plans. -/
theorem optimizeFrameExtraction_size_noninterference
    (v1 v2 duration fps : ℚ) :
    optimizeFrameExtraction v1 duration fps = optimizeFrameExtraction v2 duration fps := rfl

/-! ## SBS converter options, validation, disparity (`use-video-picker.ts`) -/

/-- Embedding of `SBSConverterOptions`. -/
structure SBSConverterOptions where
  enabled : Bool
  pupilDistance : ℚ
  convergenceDistance : ℚ

/-- Message pushed by `validateSBSOptions` when the pupil distance is out of range. -/
def pupilDistanceError : String := "瞳距應在 50-80mm 之間"

/-- Message pushed by `validateSBSOptions` when the convergence distance is out of range. -/
def convergenceDistanceError : String := "聚焦距離應在 500-5000mm 之間"

/-- Result record of `validateSBSOptions`. -/
structure ValidationResult where
  valid : Bool
  errors : List String

/-- Embedding of `validateSBSOptions(options)` from `src/hooks/use-video-picker.ts`
(lines 327-345): the two pushes into `errors` become a two-part list append. -/
def validateSBSOptions (options : SBSConverterOptions) : ValidationResult :=
  let errors : List String :=
    (if options.pupilDistance < 50 ∨ options.pupilDistance > 80
      then [pupilDistanceError] else [])
    ++ (if options.convergenceDistance < 500 ∨ options.convergenceDistance > 5000
      then [convergenceDistanceError] else [])
  { valid := errors.length == 0, errors := errors }

/-- C4: `validateSBSOptions` evaluates both range checks independently and
accumulates errors: it is valid with an empty error list exactly when both
fields are in range (boundaries included); exactly one out-of-range field
yields exactly the one matching error; two out-of-range fields yield at least
two errors. -/
theorem validateSBSOptions_spec (o : SBSConverterOptions) :
    ((validateSBSOptions o).valid = true ∧ (validateSBSOptions o).errors = [] ↔
      50 ≤ o.pupilDistance ∧ o.pupilDistance ≤ 80 ∧
      500 ≤ o.convergenceDistance ∧ o.convergenceDistance ≤ 5000) ∧
    ((o.pupilDistance < 50 ∨ 80 < o.pupilDistance) →
      500 ≤ o.convergenceDistance → o.convergenceDistance ≤ 5000 →
      (validateSBSOptions o).valid = false ∧
      (validateSBSOptions o).errors = [pupilDistanceError]) ∧
    (50 ≤ o.pupilDistance → o.pupilDistance ≤ 80 →
      (o.convergenceDistance < 500 ∨ 5000 < o.convergenceDistance) →
      (validateSBSOptions o).valid = false ∧
      (validateSBSOptions o).errors = [convergenceDistanceError]) ∧
    ((o.pupilDistance < 50 ∨ 80 < o.pupilDistance) →
      (o.convergenceDistance < 500 ∨ 5000 < o.convergenceDistance) →
      2 ≤ (validateSBSOptions o).errors.length) := by
  have herr : (validateSBSOptions o).errors
      = (if o.pupilDistance < 50 ∨ o.pupilDistance > 80 then [pupilDistanceError] else [])
        ++ (if o.convergenceDistance < 500 ∨ o.convergenceDistance > 5000
            then [convergenceDistanceError] else []) := rfl
  have hval : (validateSBSOptions o).valid
      = ((validateSBSOptions o).errors.length == 0) := rfl
  by_cases hp : o.pupilDistance < 50 ∨ o.pupilDistance > 80
  · by_cases hc : o.convergenceDistance < 500 ∨ o.convergenceDistance > 5000
    · have he : (validateSBSOptions o).errors
          = [pupilDistanceError, convergenceDistanceError] := by
        rw [herr, if_pos hp, if_pos hc]
        rfl
      have hv : (validateSBSOptions o).valid = false := by
        rw [hval, he]
        rfl
      refine ⟨?_, ?_, ?_, ?_⟩
      · constructor
        · rintro ⟨h, -⟩
          rw [hv] at h
          exact absurd h (by simp)
        · rintro ⟨ha, hb, hcc, hd⟩
          exfalso
          rcases hp with h | h <;> linarith
      · rintro - hc1 hc2
        exfalso
        rcases hc with h | h <;> linarith
      · rintro ha hb -
        exfalso
        rcases hp with h | h <;> linarith
      · rintro - -
        rw [he]
        simp
    · have he : (validateSBSOptions o).errors = [pupilDistanceError] := by
        rw [herr, if_pos hp, if_neg hc]
        rfl
      have hv : (validateSBSOptions o).valid = false := by
        rw [hval, he]
        rfl
      push_neg at hc
      refine ⟨?_, ?_, ?_, ?_⟩
      · constructor
        · rintro ⟨h, -⟩
          rw [hv] at h
          exact absurd h (by simp)
        · rintro ⟨ha, hb, -, -⟩
          exfalso
          rcases hp with h | h <;> linarith
      · rintro - - -
        exact ⟨hv, he⟩
      · rintro ha hb -
        exfalso
        rcases hp with h | h <;> linarith
      · rintro - hcc
        exfalso
        rcases hcc with h | h <;> linarith [hc.1, hc.2]
  · by_cases hc : o.convergenceDistance < 500 ∨ o.convergenceDistance > 5000
    · have he : (validateSBSOptions o).errors = [convergenceDistanceError] := by
        rw [herr, if_neg hp, if_pos hc]
        rfl
      have hv : (validateSBSOptions o).valid = false := by
        rw [hval, he]
        rfl
      push_neg at hp
      refine ⟨?_, ?_, ?_, ?_⟩
      · constructor
        · rintro ⟨h, -⟩
          rw [hv] at h
          exact absurd h (by simp)
        · rintro ⟨-, -, hcc, hd⟩
          exfalso
          rcases hc with h | h <;> linarith
      · rintro hpp - -
        exfalso
        rcases hpp with h | h <;> linarith [hp.1, hp.2]
      · rintro - - -
        exact ⟨hv, he⟩
      · rintro hpp -
        exfalso
        rcases hpp with h | h <;> linarith [hp.1, hp.2]
    · have he : (validateSBSOptions o).errors = [] := by
        rw [herr, if_neg hp, if_neg hc]
        rfl
      have hv : (validateSBSOptions o).valid = true := by
        rw [hval, he]
        rfl
      push_neg at hp hc
      refine ⟨?_, ?_, ?_, ?_⟩
      · constructor
        · intro h
          exact ⟨hp.1, hp.2, hc.1, hc.2⟩
        · intro h
          exact ⟨hv, he⟩
      · rintro hpp - -
        exfalso
        rcases hpp with h | h <;> linarith [hp.1, hp.2]
      · rintro - - hcc
        exfalso
        rcases hcc with h | h <;> linarith [hc.1, hc.2]
      · rintro hpp -
        exfalso
        rcases hpp with h | h <;> linarith [hp.1, hp.2]

/-- C4 witness: both fields out of range at `pupilDistance = 30`,
`convergenceDistance = 100` produce at least two errors. -/
theorem validateSBSOptions_spec_witness :
    2 ≤ (validateSBSOptions ⟨true, 30, 100⟩).errors.length :=
  (validateSBSOptions_spec ⟨true, 30, 100⟩).2.2.2 (by norm_num) (by norm_num)

/-- Embedding of `calculateDisparityShift(pupilDistance, convergenceDistance)`
from `src/hooks/use-video-picker.ts` (lines 240-249). -/
def calculateDisparityShift (pupilDistance convergenceDistance : ℚ) : ℚ :=
  let baseShift := pupilDistance / convergenceDistance * 100
  max (-10) (min 10 baseShift)

/-- C5: for every pupil distance and positive convergence distance,
`calculateDisparityShift` equals `clamp((pd/cd) * 100, -10, 10)` and its result
lies within `[-10, 10]`. -/
theorem calculateDisparityShift_spec (pd cd : ℚ) (hcd : 0 < cd) :
    calculateDisparityShift pd cd = max (-10) (min 10 (pd / cd * 100)) ∧
    -10 ≤ calculateDisparityShift pd cd ∧ calculateDisparityShift pd cd ≤ 10 :=
  ⟨rfl, le_max_left _ _, max_le (by norm_num) (min_le_left _ _)⟩

/-- C5 witness: the specification instantiated at `pd = 65`, `cd = 1000`. -/
theorem calculateDisparityShift_spec_witness :
    calculateDisparityShift 65 1000 = max (-10) (min 10 ((65 : ℚ) / 1000 * 100)) ∧
    -10 ≤ calculateDisparityShift 65 1000 ∧ calculateDisparityShift 65 1000 ≤ 10 :=
  calculateDisparityShift_spec 65 1000 (by norm_num)

/-- Embedding of `calculateOptimalPupilDistance(screenWidth, viewingDistance)`
from `src/hooks/use-video-picker.ts` (lines 314-322); `Math.tan` becomes
`Real.tan`, so the definition lives over the reals. -/
noncomputable def calculateOptimalPupilDistance (screenWidth viewingDistance : ℝ) : ℝ :=
  let optimalDistance := screenWidth * Real.tan (30 * Real.pi / 180) / 2
  max 50 (min 80 optimalDistance)

/-- C8: `calculateOptimalPupilDistance` equals
`clamp(screenWidthMm * tan(30°) / 2, 50, 80)`, always lies within `[50, 80]`,
is monotone non-decreasing in the screen width, and ignores the viewing
distance. -/
theorem calculateOptimalPupilDistance_spec (w v : ℝ) (hw : 0 < w) (hv : 0 < v) :
    calculateOptimalPupilDistance w v
        = max 50 (min 80 (w * Real.tan (30 * Real.pi / 180) / 2)) ∧
    50 ≤ calculateOptimalPupilDistance w v ∧
    calculateOptimalPupilDistance w v ≤ 80 ∧
    (∀ w', w ≤ w' → calculateOptimalPupilDistance w v ≤ calculateOptimalPupilDistance w' v) ∧
    (∀ v', calculateOptimalPupilDistance w v = calculateOptimalPupilDistance w v') := by
  have hang : (30 * Real.pi / 180 : ℝ) = Real.pi / 6 := by ring
  have htan : 0 ≤ Real.tan (30 * Real.pi / 180) := by
    rw [hang]
    exact Real.tan_nonneg_of_nonneg_of_le_pi_div_two
      (by positivity) (by linarith [Real.pi_pos])
  refine ⟨rfl, le_max_left _ _, max_le (by norm_num) (min_le_left _ _), ?_, fun v' => rfl⟩
  intro w' hw'
  show max 50 (min 80 (w * Real.tan (30 * Real.pi / 180) / 2))
      ≤ max 50 (min 80 (w' * Real.tan (30 * Real.pi / 180) / 2))
  have hmul : w * Real.tan (30 * Real.pi / 180) / 2
      ≤ w' * Real.tan (30 * Real.pi / 180) / 2 := by
    have := mul_le_mul_of_nonneg_right hw' htan
    linarith
  exact max_le_max (le_refl 50) (min_le_min (le_refl 80) hmul)

/-- C8 witness: the specification instantiated at `w = 100`, `v = 600`,
with the monotonicity part applied to `w' = 200`. -/
theorem calculateOptimalPupilDistance_spec_witness :
    50 ≤ calculateOptimalPupilDistance 100 600 ∧
    calculateOptimalPupilDistance 100 600 ≤ calculateOptimalPupilDistance 200 600 :=
  ⟨(calculateOptimalPupilDistance_spec 100 600 (by norm_num) (by norm_num)).2.1,
    (calculateOptimalPupilDistance_spec 100 600 (by norm_num)
      (by norm_num)).2.2.2.1 200 (by norm_num)⟩

/-! ## Frame processor: frame cache, extraction, batches
(`src/hooks/use-video-frame-processor.ts`) -/

/-- Embedding of `ProcessedFrame`; the `Uint8Array` buffer becomes a function
from byte index to byte value. -/
structure ProcessedFrame where
  data : ℕ → ℕ
  width : ℕ
  height : ℕ
  timestamp : ℚ

/-- The frame cache (`frameBufferRef.current`): a JavaScript `Map` from frame
index to frame, modelled as its insertion-ordered entry list. -/
abbrev FrameCache := List (ℕ × ProcessedFrame)

/-- Embedding of `Map.has(frameIndex)` on the frame cache. -/
def cacheHas (c : FrameCache) (i : ℕ) : Bool := c.any (fun e => e.1 == i)

/-- Embedding of `Map.get(frameIndex)` on the frame cache. -/
def cacheGet (c : FrameCache) (i : ℕ) : Option ProcessedFrame :=
  (c.find? (fun e => e.1 == i)).map (fun e => e.2)

/-- One completed `extractFrame(videoUri, frameIndex, options)` call
(`src/hooks/use-video-frame-processor.ts`, lines 49-100), as its effect on the
frame cache paired with the returned frame. The asynchronous frame-source
collaborator (`simulateFrameExtraction` in the source) is the `frameSource`
parameter; `none` is a frame-source failure, which the source catches and turns
into a `null` return with the cache untouched. A cache hit returns the cached
frame; a miss stores the new frame with `set` and then, when the size exceeds
100, deletes the entry under the first key of the insertion order. -/
def extractFrame (c : FrameCache) (i : ℕ)
    (frameSource : ℕ → Option ProcessedFrame) : FrameCache × Option ProcessedFrame :=
  if cacheHas c i then (c, cacheGet c i)
  else
    match frameSource i with
    | none => (c, none)
    | some frame =>
      let c1 := c ++ [(i, frame)]
      if 100 < c1.length then
        match c1.head? with
        | some e => (c1.eraseP (fun x => x.1 == e.1), some frame)
        | none => (c1, some frame)
      else (c1, some frame)

theorem cacheHas_eq_false_iff (c : FrameCache) (j : ℕ) :
    cacheHas c j = false ↔ ∀ e ∈ c, e.1 ≠ j := by
  simp [cacheHas]

theorem cacheHas_append (a b : FrameCache) (j : ℕ) :
    cacheHas (a ++ b) j = (cacheHas a j || cacheHas b j) := by
  simp [cacheHas]

theorem cacheHas_eraseP_false (c : FrameCache) (p : ℕ × ProcessedFrame → Bool)
    (j : ℕ) (h : cacheHas c j = false) : cacheHas (c.eraseP p) j = false := by
  rw [cacheHas_eq_false_iff] at h ⊢
  intro e he
  exact h e (List.mem_of_mem_eraseP he)

/-- Inserting a fresh index and possibly evicting never makes an unrelated
missing index present. -/
theorem cacheHas_extractFrame_false (c : FrameCache) (i j : ℕ)
    (fs : ℕ → Option ProcessedFrame) (hj : cacheHas c j = false) (hij : j ≠ i) :
    cacheHas (extractFrame c i fs).1 j = false := by
  rw [extractFrame]
  by_cases hi : cacheHas c i = true
  · rw [if_pos hi]
    exact hj
  · rw [if_neg hi]
    cases hfs : fs i with
    | none => exact hj
    | some frame =>
      simp only
      have h1 : cacheHas (c ++ [(i, frame)]) j = false := by
        rw [cacheHas_append, hj]
        simp [cacheHas, Ne.symm hij]
      by_cases hlen : 100 < (c ++ [(i, frame)]).length
      · rw [if_pos hlen]
        cases hh : (c ++ [(i, frame)]).head? with
        | none => exact h1
        | some e => exact cacheHas_eraseP_false _ _ _ h1
      · rw [if_neg hlen]
        exact h1

/-- Filling phase of the cache: as long as the capacity 100 is not exceeded,
extraction of fresh indices appends entries in insertion order. -/
theorem foldl_extractFrame_fill (fr : ℕ → ProcessedFrame) :
    ∀ (l : List ℕ) (c : FrameCache), l.Nodup →
      (∀ j ∈ l, cacheHas c j = false) → c.length + l.length ≤ 100 →
      l.foldl (fun c i => (extractFrame c i (fun j => some (fr j))).1) c
        = c ++ l.map (fun i => (i, fr i)) := by
  intro l
  induction l with
  | nil =>
    intro c _ _ _
    simp
  | cons i rest ih =>
    intro c hnd hmiss hlen
    have hmi : cacheHas c i = false := hmiss i (by simp)
    have hstep : (extractFrame c i (fun j => some (fr j))).1 = c ++ [(i, fr i)] := by
      rw [extractFrame, if_neg (by rw [hmi]; simp)]
      simp only
      rw [if_neg (by simp at hlen ⊢; omega)]
    rw [List.foldl_cons, hstep, ih (c ++ [(i, fr i)]) hnd.of_cons ?_ ?_]
    · simp
    · intro j hjr
      rw [cacheHas_append, hmiss j (by simp [hjr])]
      have hij : i ≠ j := by
        rintro rfl
        exact (List.nodup_cons.mp hnd).1 hjr
      simp [cacheHas, hij]
    · simp at hlen ⊢
      omega

/-- C6: the frame cache never exceeds 100 entries after a completed
`extractFrame` call, and eviction is first-in-first-out: starting from an empty
cache, inserting 101 distinct frame indices leaves exactly 100 entries with the
first-inserted index the one absent (and every later index still present). -/
theorem extractFrame_cache_bound_and_fifo :
    (∀ (c : FrameCache) (i : ℕ) (fs : ℕ → Option ProcessedFrame),
      c.length ≤ 100 → (extractFrame c i fs).1.length ≤ 100) ∧
    (∀ (i0 : ℕ) (rest : List ℕ) (fr : ℕ → ProcessedFrame),
      (i0 :: rest).Nodup → rest.length = 100 →
      ((i0 :: rest).foldl (fun c i => (extractFrame c i (fun j => some (fr j))).1)
          []).length = 100 ∧
      cacheHas ((i0 :: rest).foldl
          (fun c i => (extractFrame c i (fun j => some (fr j))).1) []) i0 = false ∧
      ∀ j ∈ rest, cacheHas ((i0 :: rest).foldl
          (fun c i => (extractFrame c i (fun j => some (fr j))).1) []) j = true) := by
  constructor
  · intro c i fs hc
    rw [extractFrame]
    by_cases hi : cacheHas c i = true
    · rw [if_pos hi]
      exact hc
    · rw [if_neg hi]
      cases hfs : fs i with
      | none => exact hc
      | some frame =>
        simp only
        by_cases hlen : 100 < (c ++ [(i, frame)]).length
        · rw [if_pos hlen]
          obtain ⟨e, t, het⟩ : ∃ e t, c ++ [(i, frame)] = e :: t := by
            cases hcc : c ++ [(i, frame)] with
            | nil => simp at hcc
            | cons e t => exact ⟨e, t, rfl⟩
          rw [het]
          simp only [List.head?_cons]
          rw [List.eraseP_cons_of_pos (by simp)]
          have : (e :: t).length = c.length + 1 := by
            rw [← het]
            simp
          simp at this ⊢
          omega
        · rw [if_neg hlen]
          simp at hlen ⊢
          omega
  · intro i0 rest fr hnd hrest
    obtain ⟨l', lst, rfl⟩ : ∃ l' lst, rest = l' ++ [lst] := by
      have hne : rest ≠ [] := by
        intro h
        rw [h] at hrest
        simp at hrest
      exact ⟨rest.dropLast, rest.getLast hne, (List.dropLast_append_getLast hne).symm⟩
    have hi0 : i0 ∉ l' ++ [lst] := (List.nodup_cons.mp hnd).1
    have hndr : (l' ++ [lst]).Nodup := (List.nodup_cons.mp hnd).2
    have hi0l : i0 ∉ l' := fun h => hi0 (List.mem_append.mpr (Or.inl h))
    have hi0lst : i0 ≠ lst := fun h => hi0 (List.mem_append.mpr (Or.inr (by simp [h])))
    have hlstl : lst ∉ l' := by
      have hdis := (List.nodup_append.mp hndr).2.2
      intro hmem
      exact hdis hmem (by simp)
    have hndl : l'.Nodup := (List.nodup_append.mp hndr).1
    have hl : l'.length = 99 := by
      simp at hrest
      omega
    -- first insertion into the empty cache
    have hfirst : (extractFrame [] i0 (fun j => some (fr j))).1 = [(i0, fr i0)] := by
      rw [extractFrame, if_neg (by simp [cacheHas])]
      simp
    -- filling phase: the next 99 insertions append
    have hfill : l'.foldl
        (fun c i => (extractFrame c i (fun j => some (fr j))).1) [(i0, fr i0)]
        = (i0, fr i0) :: l'.map (fun i => (i, fr i)) := by
      rw [foldl_extractFrame_fill fr l' [(i0, fr i0)] hndl ?_ (by simp [hl])]
      · simp
      · intro j hj
        have hij : i0 ≠ j := by
          rintro rfl
          exact hi0l hj
        simp [cacheHas, hij]
    -- the 101st insertion evicts the first key
    have hmiss : cacheHas ((i0, fr i0) :: l'.map (fun i => (i, fr i))) lst = false := by
      rw [cacheHas_eq_false_iff]
      intro e he
      rcases List.mem_cons.mp he with h | h
      · subst h
        intro hc
        exact hi0lst hc
      · obtain ⟨a, ha, rfl⟩ := List.mem_map.mp h
        intro hc
        have hal : a = lst := hc
        rw [hal] at ha
        exact hlstl ha
    have hlast : (extractFrame ((i0, fr i0) :: l'.map (fun i => (i, fr i))) lst
        (fun j => some (fr j))).1
        = l'.map (fun i => (i, fr i)) ++ [(lst, fr lst)] := by
      rw [extractFrame, if_neg (by rw [hmiss]; simp)]
      simp only
      rw [if_pos (by simp [hl])]
      simp only [List.cons_append, List.head?_cons]
      rw [List.eraseP_cons_of_pos (by simp)]
    have hfold : (i0 :: (l' ++ [lst])).foldl
        (fun c i => (extractFrame c i (fun j => some (fr j))).1) []
        = l'.map (fun i => (i, fr i)) ++ [(lst, fr lst)] := by
      rw [List.foldl_cons, hfirst, List.foldl_append, hfill]
      simp only [List.foldl_cons, List.foldl_nil]
      exact hlast
    rw [hfold]
    refine ⟨?_, ?_, ?_⟩
    · rw [List.length_append, List.length_map, hl]
      rfl
    · rw [cacheHas_eq_false_iff]
      intro e he
      rcases List.mem_append.mp he with h | h
      · obtain ⟨a, ha, rfl⟩ := List.mem_map.mp h
        intro hc
        have hai : a = i0 := hc
        rw [hai] at ha
        exact hi0l ha
      · have h' : e = (lst, fr lst) := by simpa using h
        subst h'
        intro hc
        exact hi0lst (Eq.symm hc)
    · intro j hj
      rcases List.mem_append.mp hj with h | h
      · have hany : ((l'.map (fun i => (i, fr i))).any fun e => e.1 == j) = true :=
          List.any_eq_true.mpr ⟨(j, fr j), List.mem_map.mpr ⟨j, h, rfl⟩, by simp⟩
        simp [cacheHas, List.any_append, hany]
      · have h' : j = lst := by simpa using h
        subst h'
        simp [cacheHas, List.any_append]

/-- C6 witness: the capacity invariant applied to the empty cache, and the
FIFO scenario applied to the 101 distinct indices `0, …, 100`. -/
theorem extractFrame_cache_bound_and_fifo_witness :
    (([] : FrameCache).length ≤ 100 ∧
      (extractFrame [] 7 (fun _ => none)).1.length ≤ 100) ∧
    ((0 :: List.range' 1 100).Nodup ∧ (List.range' 1 100).length = 100 ∧
      ((0 :: List.range' 1 100).foldl
        (fun c i => (extractFrame c i (fun j => some ⟨fun _ => 0, 1, 1, 0⟩)).1)
        []).length = 100) := by
  have h1 : (0 :: List.range' 1 100).Nodup := by
    rw [List.nodup_cons]
    refine ⟨?_, List.nodup_range' 1 100⟩
    intro h
    have := (List.mem_range'_1.mp h).1
    omega
  refine ⟨⟨by simp, extractFrame_cache_bound_and_fifo.1 [] 7 (fun _ => none) (by simp)⟩,
    h1, by simp, ?_⟩
  exact (extractFrame_cache_bound_and_fifo.2 0 (List.range' 1 100)
    (fun _ => ⟨fun _ => 0, 1, 1, 0⟩) h1 (by simp)).1

/-- Loop body of `processBatch` over the remaining frame indices: each
iteration first checks the abort signal (a signalled abort throws `處理已取消`
and the `catch` returns the frames accumulated so far), then calls
`extractFrame`; a returned frame is appended, a `null` (failed extraction) is
skipped and the loop continues with the next index. -/
def processBatchGo (fs : ℕ → Option ProcessedFrame) (ab : ℕ → Bool) :
    List ℕ → FrameCache → List ProcessedFrame → List ProcessedFrame × FrameCache
  | [], c, acc => (acc, c)
  | i :: rest, c, acc =>
    if ab i then (acc, c)
    else
      match extractFrame c i fs with
      | (c1, some f) => processBatchGo fs ab rest c1 (acc ++ [f])
      | (c1, none) => processBatchGo fs ab rest c1 acc

/-- Embedding of `processBatch(videoUri, startFrame, endFrame, options, onProgress)`
(`src/hooks/use-video-frame-processor.ts`, lines 193-238): the `for` loop over
`[startFrame, endFrame)` with the frame cache threaded through; `ab i` says
whether the abort signal is observed set at iteration `i`. Progress reporting
does not affect the returned frame list and is omitted. -/
def processBatch (c : FrameCache) (startFrame endFrame : ℕ)
    (fs : ℕ → Option ProcessedFrame) (ab : ℕ → Bool) :
    List ProcessedFrame × FrameCache :=
  processBatchGo fs ab (List.range' startFrame (endFrame - startFrame)) c []

/-- Frame source that fails exactly at index 1 and returns a frame of width
`100 + i` at every other index `i`. -/
def failAtOneSource : ℕ → Option ProcessedFrame :=
  fun i => if i = 1 then none else some ⟨fun _ => 0, 100 + i, 1, 0⟩

/-- C1 counterexample: running `processBatch` over `[0, 3)` with a frame source
that fails at index 1 does not abort: the returned list has two frames — the
ones of indices 0 and 2 (widths 100 and 102) — so index 2 > 1 was still
extracted, and the list is not the one-element prefix the claim predicts. -/
theorem processBatch_failure_not_aborting_cex :
    ((processBatch [] 0 3 failAtOneSource (fun _ => false)).1.map
      (fun f => f.width)) = [100, 102] ∧
    (processBatch [] 0 3 failAtOneSource (fun _ => false)).1.length = 2 := by
  constructor <;> rfl

theorem extractFrame_miss_none (c : FrameCache) (i : ℕ)
    (fs : ℕ → Option ProcessedFrame) (hmiss : cacheHas c i = false)
    (hfs : fs i = none) : extractFrame c i fs = (c, none) := by
  rw [extractFrame, if_neg (by rw [hmiss]; simp), hfs]

theorem extractFrame_miss_some (c : FrameCache) (i : ℕ)
    (fs : ℕ → Option ProcessedFrame) (f : ProcessedFrame)
    (hmiss : cacheHas c i = false) (hfs : fs i = some f) :
    (extractFrame c i fs).2 = some f := by
  rw [extractFrame, if_neg (by rw [hmiss]; simp), hfs]
  simp only
  by_cases hlen : 100 < (c ++ [(i, f)]).length
  · rw [if_pos hlen]
    cases hh : (c ++ [(i, f)]).head? with
    | none => rfl
    | some e => rfl
  · rw [if_neg hlen]

/-- With no abort and a cache that misses every requested index, the batch
loop returns the accumulator followed by exactly the successful extractions,
in order — failed indices are skipped, not aborted on. -/
theorem processBatchGo_skips_failures (fs : ℕ → Option ProcessedFrame) :
    ∀ (l : List ℕ) (c : FrameCache) (acc : List ProcessedFrame), l.Nodup →
      (∀ j ∈ l, cacheHas c j = false) →
      (processBatchGo fs (fun _ => false) l c acc).1 = acc ++ l.filterMap fs := by
  intro l
  induction l with
  | nil =>
    intro c acc _ _
    simp [processBatchGo]
  | cons i rest ih =>
    intro c acc hnd hmiss
    have hmi : cacheHas c i = false := hmiss i (by simp)
    have hmissrest : ∀ j ∈ rest, cacheHas (extractFrame c i fs).1 j = false := by
      intro j hj
      have hij : j ≠ i := by
        rintro rfl
        exact (List.nodup_cons.mp hnd).1 hj
      exact cacheHas_extractFrame_false c i j fs (hmiss j (by simp [hj])) hij
    cases hfs : fs i with
    | none =>
      have hE : extractFrame c i fs = (c, none) := extractFrame_miss_none c i fs hmi hfs
      have hc1 : ∀ j ∈ rest, cacheHas c j = false := by
        intro j hj
        have hh := hmissrest j hj
        rw [hE] at hh
        exact hh
      rw [processBatchGo, if_neg (by simp), hE]
      rw [ih c acc (List.nodup_cons.mp hnd).2 hc1]
      rw [List.filterMap_cons_none hfs]
    | some f =>
      rcases hE : extractFrame c i fs with ⟨c1, r⟩
      have hr : r = some f := by
        have hh := extractFrame_miss_some c i fs f hmi hfs
        rw [hE] at hh
        exact hh
      subst hr
      rw [processBatchGo, if_neg (by simp), hE]
      have hc1 : ∀ j ∈ rest, cacheHas c1 j = false := by
        intro j hj
        have hh := hmissrest j hj
        rw [hE] at hh
        exact hh
      rw [ih c1 (acc ++ [f]) (List.nodup_cons.mp hnd).2 hc1]
      rw [List.filterMap_cons_some hfs, List.append_assoc]
      rfl

/-- C1 amended: a frame-source failure during `processBatch` does not abort
the batch — the failed index is skipped and iteration continues; with no
cancellation and a fresh cache the returned list is exactly the successful
extractions over `[startFrame, endFrame)`, in order, including indices after
any failed one. -/
theorem processBatch_collects_successes (s e : ℕ) (fs : ℕ → Option ProcessedFrame) :
    (processBatch [] s e fs (fun _ => false)).1
      = (List.range' s (e - s)).filterMap fs := by
  rw [processBatch, processBatchGo_skips_failures fs (List.range' s (e - s)) [] []
    (List.nodup_range' s (e - s)) (fun j _ => rfl)]
  rfl

/-! ## Stereo pair synthesizer (`convertFrameToSBS`) -/

/-- One iteration of the copy loops of `convertFrameToSBS`: the four byte
assignments copying the RGBA pixel read at `srcIdx` into `dstIdx`. -/
def writeRGBA (src dst : ℕ → ℕ) (srcIdx dstIdx : ℕ) : ℕ → ℕ :=
  fun j =>
    if j = dstIdx then src srcIdx
    else if j = dstIdx + 1 then src (srcIdx + 1)
    else if j = dstIdx + 2 then src (srcIdx + 2)
    else if j = dstIdx + 3 then src (srcIdx + 3)
    else dst j

theorem writeRGBA_at (src dst : ℕ → ℕ) (si di b : ℕ) (hb : b < 4) :
    writeRGBA src dst si di (di + b) = src (si + b) := by
  have hb' : b = 0 ∨ b = 1 ∨ b = 2 ∨ b = 3 := by omega
  simp only [writeRGBA]
  rcases hb' with rfl | rfl | rfl | rfl
  · rw [if_pos (by omega)]
    rfl
  · rw [if_neg (by omega), if_pos rfl]
  · rw [if_neg (by omega), if_neg (by omega), if_pos rfl]
  · rw [if_neg (by omega), if_neg (by omega), if_neg (by omega), if_pos rfl]

theorem writeRGBA_ne (src dst : ℕ → ℕ) (si di j : ℕ)
    (h : j < di ∨ di + 4 ≤ j) : writeRGBA src dst si di j = dst j := by
  simp only [writeRGBA]
  rw [if_neg (by omega), if_neg (by omega), if_neg (by omega), if_neg (by omega)]

/-- Byte `b` of the pixel at row `y'`, column `c'` lies outside the 4-byte
write window of the pixel at a different position `(y, c)` (same row-major
layout of width `W`). -/
theorem pix_separation (W y c y' c' b : ℕ) (hne : y ≠ y' ∨ c ≠ c')
    (hc : c < W) (hc' : c' < W) (hb : b < 4) :
    (y' * W + c') * 4 + b < (y * W + c) * 4 ∨
      (y * W + c) * 4 + 4 ≤ (y' * W + c') * 4 + b := by
  obtain ⟨A, hA⟩ : ∃ A, y * W = A := ⟨_, rfl⟩
  obtain ⟨B, hB⟩ : ∃ B, y' * W = B := ⟨_, rfl⟩
  rcases Nat.lt_trichotomy y y' with hyy | hyy | hyy
  · have h1 : A + W ≤ B := by
      calc A + W = (y + 1) * W := by rw [← hA]; ring
      _ ≤ y' * W := Nat.mul_le_mul_right W (by omega)
      _ = B := hB
    rw [hA, hB]
    omega
  · subst hyy
    have hcc : c ≠ c' := by
      rcases hne with h | h
      · exact absurd rfl h
      · exact h
    rw [hA]
    omega
  · have h1 : B + W ≤ A := by
      calc B + W = (y' + 1) * W := by rw [← hB]; ring
      _ ≤ y * W := Nat.mul_le_mul_right W (by omega)
      _ = A := hA
    rw [hA, hB]
    omega

/-- A fold whose steps all leave position `j` unchanged leaves `j` unchanged. -/
theorem foldl_preserves_at {α : Type} (step : (ℕ → ℕ) → α → (ℕ → ℕ)) (j : ℕ) :
    ∀ l : List α, (∀ d a, a ∈ l → step d a j = d j) →
      ∀ d : ℕ → ℕ, l.foldl step d j = d j := by
  intro l
  induction l with
  | nil =>
    intro _ d
    rfl
  | cons a t ih =>
    intro h d
    rw [List.foldl_cons, ih (fun d' b hb => h d' b (List.mem_cons_of_mem a hb))]
    exact h d a (List.mem_cons_self a t)

/-- A fold in which exactly one step writes position `j`, with a value
independent of the running buffer, computes that value at `j`. -/
theorem foldl_writes_at {α : Type} (step : (ℕ → ℕ) → α → (ℕ → ℕ)) (j v : ℕ) :
    ∀ l : List α, ∀ a0 : α, a0 ∈ l → l.Nodup →
      (∀ d, step d a0 j = v) →
      (∀ d a, a ∈ l → a ≠ a0 → step d a j = d j) →
      ∀ d : ℕ → ℕ, l.foldl step d j = v := by
  intro l
  induction l with
  | nil =>
    intro a0 h
    simp at h
  | cons a t ih =>
    intro a0 hmem hnd hw hother d
    rw [List.foldl_cons]
    rcases List.mem_cons.mp hmem with rfl | hmem'
    · rw [foldl_preserves_at step j t ?_]
      · exact hw d
      · intro d' b hb
        have hba : b ≠ a0 := by
          rintro rfl
          exact (List.nodup_cons.mp hnd).1 hb
        exact hother d' b (List.mem_cons_of_mem a0 hb) hba
    · exact ih a0 hmem' (List.nodup_cons.mp hnd).2 hw
        (fun d' b hb hne => hother d' b (List.mem_cons_of_mem a hb) hne) (step d a)

/-- Embedding of `shiftPixels = Math.round((disparityShift / 100) * width)`
(`use-video-frame-processor.ts`, line 166). -/
def shiftPixels (disparityShift : ℚ) (width : ℕ) : ℤ :=
  jsRound (disparityShift / 100 * (width : ℚ))

/-- Embedding of `srcX = Math.max(0, Math.min(width - 1, x + shiftPixels))` (line 169),
computed over ℤ since `x + shiftPixels` may be negative. -/
def clampSrcX (width x : ℕ) (sp : ℤ) : ℕ :=
  (max 0 (min ((width : ℤ) - 1) ((x : ℤ) + sp))).toNat

/-- Left-eye loop nest of `convertFrameToSBS` (lines 153-163): byte-for-byte
copy of the source frame into destination columns `[0, width)`. -/
def copyLeftEye (frame : ProcessedFrame) (dst : ℕ → ℕ) : ℕ → ℕ :=
  (List.range frame.height).foldl
    (fun d y =>
      (List.range frame.width).foldl
        (fun d x => writeRGBA frame.data d
          ((y * frame.width + x) * 4)
          ((y * (frame.width * 2) + x) * 4)) d) dst

/-- Right-eye loop nest of `convertFrameToSBS` (lines 166-178): copy the
clamp-shifted source columns into destination columns `[width, 2*width)`. -/
def copyRightEye (frame : ProcessedFrame) (disparityShift : ℚ) (dst : ℕ → ℕ) : ℕ → ℕ :=
  (List.range frame.height).foldl
    (fun d y =>
      (List.range frame.width).foldl
        (fun d x => writeRGBA frame.data d
          ((y * frame.width
            + clampSrcX frame.width x (shiftPixels disparityShift frame.width)) * 4)
          ((y * (frame.width * 2) + (frame.width + x)) * 4)) d) dst

/-- Embedding of `convertFrameToSBS(frame, disparityShift)`
(`use-video-frame-processor.ts`, lines 141-188): a zero-filled double-width
RGBA buffer, the left-eye copy pass, then the right-eye shifted copy pass. -/
def convertFrameToSBS (frame : ProcessedFrame) (disparityShift : ℚ) : ProcessedFrame :=
  { data := copyRightEye frame disparityShift (copyLeftEye frame (fun _ => 0))
    width := frame.width * 2
    height := frame.height
    timestamp := frame.timestamp }

theorem copyLeftEye_at (frame : ProcessedFrame) (dst : ℕ → ℕ) (y x b : ℕ)
    (hy : y < frame.height) (hx : x < frame.width) (hb : b < 4) :
    copyLeftEye frame dst ((y * (frame.width * 2) + x) * 4 + b)
      = frame.data ((y * frame.width + x) * 4 + b) := by
  rw [copyLeftEye]
  apply foldl_writes_at _ _ _ (List.range frame.height) y (List.mem_range.mpr hy)
    (List.nodup_range frame.height)
  · intro d
    apply foldl_writes_at _ _ _ (List.range frame.width) x (List.mem_range.mpr hx)
      (List.nodup_range frame.width)
    · intro d'
      exact writeRGBA_at frame.data d' ((y * frame.width + x) * 4)
        ((y * (frame.width * 2) + x) * 4) b hb
    · intro d' x' hx' hne
      apply writeRGBA_ne
      exact pix_separation (frame.width * 2) y x' y x b (Or.inr hne)
        (by have := List.mem_range.mp hx'; omega) (by omega) hb
  · intro d y' hy' hne
    apply foldl_preserves_at
    intro d' x' hx'
    apply writeRGBA_ne
    exact pix_separation (frame.width * 2) y' x' y x b (Or.inl hne)
      (by have := List.mem_range.mp hx'; omega) (by omega) hb

theorem copyRightEye_at (frame : ProcessedFrame) (sh : ℚ) (dst : ℕ → ℕ) (y x b : ℕ)
    (hy : y < frame.height) (hx : x < frame.width) (hb : b < 4) :
    copyRightEye frame sh dst ((y * (frame.width * 2) + (frame.width + x)) * 4 + b)
      = frame.data ((y * frame.width
          + clampSrcX frame.width x (shiftPixels sh frame.width)) * 4 + b) := by
  rw [copyRightEye]
  apply foldl_writes_at _ _ _ (List.range frame.height) y (List.mem_range.mpr hy)
    (List.nodup_range frame.height)
  · intro d
    apply foldl_writes_at _ _ _ (List.range frame.width) x (List.mem_range.mpr hx)
      (List.nodup_range frame.width)
    · intro d'
      exact writeRGBA_at frame.data d'
        ((y * frame.width + clampSrcX frame.width x (shiftPixels sh frame.width)) * 4)
        ((y * (frame.width * 2) + (frame.width + x)) * 4) b hb
    · intro d' x' hx' hne
      apply writeRGBA_ne
      exact pix_separation (frame.width * 2) y (frame.width + x') y (frame.width + x) b
        (Or.inr (by omega))
        (by have := List.mem_range.mp hx'; omega) (by omega) hb
  · intro d y' hy' hne
    apply foldl_preserves_at
    intro d' x' hx'
    apply writeRGBA_ne
    exact pix_separation (frame.width * 2) y' (frame.width + x') y (frame.width + x) b
      (Or.inl hne)
      (by have := List.mem_range.mp hx'; omega) (by omega) hb

/-- The right-eye pass only writes columns `≥ width`, so it leaves every
left-half byte unchanged. -/
theorem copyRightEye_ne_left (frame : ProcessedFrame) (sh : ℚ) (dst : ℕ → ℕ)
    (y x b : ℕ) (hx : x < frame.width) (hb : b < 4) :
    copyRightEye frame sh dst ((y * (frame.width * 2) + x) * 4 + b)
      = dst ((y * (frame.width * 2) + x) * 4 + b) := by
  rw [copyRightEye]
  apply foldl_preserves_at
  intro d y' hy'
  apply foldl_preserves_at
  intro d' x' hx'
  apply writeRGBA_ne
  apply pix_separation (frame.width * 2) y' (frame.width + x') y x b ?_
    (by have := List.mem_range.mp hx'; omega) (by omega) hb
  rcases eq_or_ne y' y with rfl | hne
  · exact Or.inr (by omega)
  · exact Or.inl hne

/-- C2: `convertFrameToSBS` doubles the width, keeps the height (hence a
zero-area source yields a zero-area result), computes
`shiftPixels = round(shift/100 * width)` and
`srcX = clamp(x + shiftPixels, 0, width-1)`, and for every row `y`, column
`x < width` and byte `b < 4` the destination left-half pixel at column `x`
equals the source pixel at `(x, y)` byte for byte while the destination pixel
at column `width + x` equals the source pixel of column `srcX` of row `y`. -/
theorem convertFrameToSBS_spec (frame : ProcessedFrame) (shift : ℚ) :
    (convertFrameToSBS frame shift).width = 2 * frame.width ∧
    (convertFrameToSBS frame shift).height = frame.height ∧
    (frame.width * frame.height = 0 →
      (convertFrameToSBS frame shift).width * (convertFrameToSBS frame shift).height = 0) ∧
    shiftPixels shift frame.width = ⌊shift / 100 * (frame.width : ℚ) + 1/2⌋ ∧
    (∀ x : ℕ, clampSrcX frame.width x (shiftPixels shift frame.width)
        = (max 0 (min ((frame.width : ℤ) - 1)
            ((x : ℤ) + shiftPixels shift frame.width))).toNat) ∧
    ∀ y x b : ℕ, y < frame.height → x < frame.width → b < 4 →
      (convertFrameToSBS frame shift).data ((y * (frame.width * 2) + x) * 4 + b)
          = frame.data ((y * frame.width + x) * 4 + b) ∧
      (convertFrameToSBS frame shift).data
          ((y * (frame.width * 2) + (frame.width + x)) * 4 + b)
          = frame.data ((y * frame.width
              + clampSrcX frame.width x (shiftPixels shift frame.width)) * 4 + b) := by
  refine ⟨by simp [convertFrameToSBS, Nat.mul_comm], rfl, ?_,
    jsRound_eq_floor _, fun x => rfl, ?_⟩
  · intro h
    rcases Nat.mul_eq_zero.mp h with h0 | h0 <;> simp [convertFrameToSBS, h0]
  · intro y x b hy hx hb
    constructor
    · have h1 : (convertFrameToSBS frame shift).data ((y * (frame.width * 2) + x) * 4 + b)
          = copyRightEye frame shift (copyLeftEye frame (fun _ => 0))
              ((y * (frame.width * 2) + x) * 4 + b) := rfl
      rw [h1, copyRightEye_ne_left frame shift _ y x b hx hb,
        copyLeftEye_at frame _ y x b hy hx hb]
    · have h1 : (convertFrameToSBS frame shift).data
            ((y * (frame.width * 2) + (frame.width + x)) * 4 + b)
          = copyRightEye frame shift (copyLeftEye frame (fun _ => 0))
              ((y * (frame.width * 2) + (frame.width + x)) * 4 + b) := rfl
      rw [h1, copyRightEye_at frame shift _ y x b hy hx hb]

/-- C2 witness: the pixel correspondence applied to a concrete 1×1 frame with
identity byte data and zero shift, at `y = x = b = 0`. -/
theorem convertFrameToSBS_spec_witness :
    (0 : ℕ) < (⟨fun i => i, 1, 1, 0⟩ : ProcessedFrame).height ∧
    (0 : ℕ) < (⟨fun i => i, 1, 1, 0⟩ : ProcessedFrame).width ∧
    (0 : ℕ) < 4 ∧
    (convertFrameToSBS ⟨fun i => i, 1, 1, 0⟩ 0).data
        ((0 * ((⟨fun i => i, 1, 1, 0⟩ : ProcessedFrame).width * 2) + 0) * 4 + 0)
      = (⟨fun i => i, 1, 1, 0⟩ : ProcessedFrame).data
          ((0 * (⟨fun i => i, 1, 1, 0⟩ : ProcessedFrame).width + 0) * 4 + 0) :=
  ⟨by decide, by decide, by decide,
    ((convertFrameToSBS_spec ⟨fun i => i, 1, 1, 0⟩ 0).2.2.2.2.2 0 0 0
      (by decide) (by decide) (by decide)).1⟩

/-! ## Conversion session (`useSBSConverter` in `use-video-picker.ts`) -/

/-- Embedding of `SBSConverterState`. -/
structure SBSConverterState where
  isConverting : Bool
  progress : ℕ
  error : Option String
  convertedUri : Option String

/-- The process-wide result cache (`conversionCache`), a `Map` from cache key
to converted URI, as its insertion-ordered entry list. -/
abbrev ConversionCache := List (String × String)

/-- Embedding of `Map.has` on the conversion cache. -/
def convHas (m : ConversionCache) (k : String) : Bool := m.any (fun e => e.1 == k)

/-- Embedding of `Map.get` on the conversion cache. -/
def convGet (m : ConversionCache) (k : String) : Option String :=
  (m.find? (fun e => e.1 == k)).map (fun e => e.2)

/-- Embedding of `Map.set` on the conversion cache: replace in place when the key exists,
otherwise append. -/
def convSet (m : ConversionCache) (k v : String) : ConversionCache :=
  match m with
  | [] => [(k, v)]
  | e :: rest => if e.1 == k then (k, v) :: rest else e :: convSet rest k v

/-- JavaScript truthiness of `get(key) || null`: an absent key or an empty
string becomes `null`. -/
def jsOrNull (s : Option String) : Option String :=
  match s with
  | none => none
  | some v => if v = "" then none else some v

/-- The cache key `videoUri_pupilDistance_convergenceDistance` (line 156); the
JavaScript number-to-string conversion is the parameter `numStr`. -/
def cacheKey (numStr : ℚ → String) (videoUri : String)
    (options : SBSConverterOptions) : String :=
  videoUri ++ "_" ++ numStr options.pupilDistance ++ "_"
    ++ numStr options.convergenceDistance

/-- Embedding of `generateSBSUri(videoUri, disparityShift)` (lines 257-261). -/
def generateSBSUri (numStr : ℚ → String) (videoUri : String)
    (disparityShift : ℚ) : String :=
  let separator := if videoUri.data.contains '?' then "&" else "?"
  videoUri ++ separator ++ "sbs=true&shift=" ++ numStr disparityShift

/-- The synthetic progress loop of `convertToSBS` (lines 180-192): eleven
steps `i = 0, 10, …, 100`, each first checking the abort signal (a signalled
abort throws `轉換已取消`), then reporting progress `i`. Returns the reported
progress values together with whether the loop ran to completion. -/
def progressLoop (ab : ℕ → Bool) : List ℕ × Bool :=
  (List.range 11).foldl
    (fun acc k =>
      if acc.2 = false then acc
      else if ab k then (acc.1, false)
      else (acc.1 ++ [10 * k], true))
    ([], true)

/-- Result of one `convertToSBS` run: the new cache, the new session state,
the returned value, and the sequence of progress values reported. -/
structure ConvertOutcome where
  cache : ConversionCache
  state : SBSConverterState
  result : Option String
  progressEvents : List ℕ

/-- Embedding of `convertToSBS(videoUri, options)` from
`src/hooks/use-video-picker.ts` (lines 150-227) as a state transformer over
the process-wide cache and the session state. A cache hit returns the cached
URI with a single progress-100 report; a miss runs the synthetic progress
loop (reporting 0 first), and on completion computes the disparity shift,
generates the converted URI, stores it, and reports 100; an abort observed in
the loop is caught, leaving the cache untouched, returning `null`, and
recording the cancellation message with progress reset to 0. -/
def convertToSBS (numStr : ℚ → String) (cache : ConversionCache)
    (st : SBSConverterState) (videoUri : String) (options : SBSConverterOptions)
    (ab : ℕ → Bool) : ConvertOutcome :=
  let key := cacheKey numStr videoUri options
  if convHas cache key then
    { cache := cache
      state := { st with convertedUri := jsOrNull (convGet cache key)
                         isConverting := false
                         progress := 100 }
      result := jsOrNull (convGet cache key)
      progressEvents := [100] }
  else
    let loop := progressLoop ab
    if loop.2 then
      let disparityShift :=
        calculateDisparityShift options.pupilDistance options.convergenceDistance
      let convertedUri := generateSBSUri numStr videoUri disparityShift
      { cache := convSet cache key convertedUri
        state := { isConverting := false
                   progress := 100
                   error := none
                   convertedUri := some convertedUri }
        result := some convertedUri
        progressEvents := [0] ++ loop.1 ++ [100] }
    else
      { cache := cache
        state := { st with isConverting := false
                           error := some "轉換已取消"
                           progress := 0 }
        result := none
        progressEvents := [0] ++ loop.1 }

theorem convGet_convSet_self (m : ConversionCache) (k v : String) :
    convGet (convSet m k v) k = some v := by
  induction m with
  | nil => simp [convSet, convGet, List.find?]
  | cons e rest ih =>
    rw [convSet]
    by_cases h : e.1 == k
    · rw [if_pos h]
      simp [convGet, List.find?]
    · rw [if_neg h]
      have h' : (e.1 == k) = false := by
        rw [Bool.eq_false_iff]
        exact h
      simp only [convGet, List.find?, h']
      exact ih

theorem convHas_eq_isSome_convGet (m : ConversionCache) (k : String) :
    convHas m k = (convGet m k).isSome := by
  induction m with
  | nil => rfl
  | cons e rest ih =>
    by_cases h : e.1 == k
    · simp [convHas, convGet, List.find?, h]
    · have h' : (e.1 == k) = false := by
        rw [Bool.eq_false_iff]
        exact h
      simp only [convHas, convGet, List.any_cons, List.find?, h', Bool.false_or]
      exact ih

theorem jsOrNull_eq_some (s : Option String) (u : String)
    (h : jsOrNull s = some u) : s = some u ∧ u ≠ "" := by
  cases s with
  | none => simp [jsOrNull] at h
  | some v =>
    rw [jsOrNull] at h
    by_cases hv : v = ""
    · rw [if_pos hv] at h
      exact absurd h (by simp)
    · rw [if_neg hv] at h
      obtain rfl : v = u := by injection h
      exact ⟨rfl, hv⟩

theorem generateSBSUri_ne_empty (numStr : ℚ → String) (uri : String) (s : ℚ) :
    generateSBSUri numStr uri s ≠ "" := by
  intro h
  have hlen : (generateSBSUri numStr uri s).length = 0 := by
    rw [h]
    rfl
  rw [generateSBSUri] at hlen
  have h15 : ("sbs=true&shift=" : String).length = 15 := rfl
  by_cases hc : uri.data.contains '?'
  · rw [if_pos hc] at hlen
    have h1 : ("&" : String).length = 1 := rfl
    simp only [String.length_append, h15, h1] at hlen
    omega
  · rw [if_neg hc] at hlen
    have h1 : ("?" : String).length = 1 := rfl
    simp only [String.length_append, h15, h1] at hlen
    omega

/-- C7: `convertToSBS` is idempotent through the process-wide result cache:
after one successful call, a second call with the same `videoUri`,
`pupilDistance` and `convergenceDistance` (any session state, any abort
behavior) returns the same converted-URI value, reports progress 100
immediately as its only progress event — the synthetic loop is not re-run —
and leaves the cache unchanged. -/
theorem convertToSBS_idempotent (numStr : ℚ → String) (c0 : ConversionCache)
    (st0 st1 : SBSConverterState) (uri : String) (o : SBSConverterOptions)
    (ab1 ab2 : ℕ → Bool) (u : String)
    (h1 : (convertToSBS numStr c0 st0 uri o ab1).result = some u) :
    (convertToSBS numStr (convertToSBS numStr c0 st0 uri o ab1).cache
        st1 uri o ab2).result = some u ∧
    (convertToSBS numStr (convertToSBS numStr c0 st0 uri o ab1).cache
        st1 uri o ab2).progressEvents = [100] ∧
    (convertToSBS numStr (convertToSBS numStr c0 st0 uri o ab1).cache
        st1 uri o ab2).state.progress = 100 ∧
    (convertToSBS numStr (convertToSBS numStr c0 st0 uri o ab1).cache
        st1 uri o ab2).state.isConverting = false ∧
    (convertToSBS numStr (convertToSBS numStr c0 st0 uri o ab1).cache
        st1 uri o ab2).cache = (convertToSBS numStr c0 st0 uri o ab1).cache := by
  have hkey : ∃ (g : String), convGet (convertToSBS numStr c0 st0 uri o ab1).cache
      (cacheKey numStr uri o) = some u ∧ u ≠ "" ∧ g = u := by
    by_cases hhit : convHas c0 (cacheKey numStr uri o) = true
    · have h1' : jsOrNull (convGet c0 (cacheKey numStr uri o)) = some u := by
        simp only [convertToSBS] at h1
        rw [if_pos hhit] at h1
        exact h1
      obtain ⟨hg, hu⟩ := jsOrNull_eq_some _ u h1'
      have hc : (convertToSBS numStr c0 st0 uri o ab1).cache = c0 := by
        simp only [convertToSBS]
        rw [if_pos hhit]
      rw [hc]
      exact ⟨u, hg, hu, rfl⟩
    · simp only [convertToSBS] at h1 ⊢
      rw [if_neg hhit] at h1 ⊢
      by_cases hloop : (progressLoop ab1).2 = true
      · rw [if_pos hloop] at h1 ⊢
        simp only at h1
        obtain rfl : generateSBSUri numStr uri
            (calculateDisparityShift o.pupilDistance o.convergenceDistance) = u := by
          injection h1
        exact ⟨_, convGet_convSet_self c0 (cacheKey numStr uri o) _,
          generateSBSUri_ne_empty numStr uri _, rfl⟩
      · rw [if_neg hloop] at h1
        simp at h1
  obtain ⟨g, hget, hune, -⟩ := hkey
  have hhas2 : convHas (convertToSBS numStr c0 st0 uri o ab1).cache
      (cacheKey numStr uri o) = true := by
    rw [convHas_eq_isSome_convGet, hget]
    rfl
  generalize hc1 : (convertToSBS numStr c0 st0 uri o ab1).cache = c1 at hget hhas2 ⊢
  have hrun2 : convertToSBS numStr c1 st1 uri o ab2
      = { cache := c1
          state := { st1 with convertedUri := some u, isConverting := false, progress := 100 }
          result := some u
          progressEvents := [100] } := by
    simp only [convertToSBS]
    rw [if_pos hhas2, hget]
    simp only [jsOrNull]
    rw [if_neg hune]
  rw [hrun2]
  exact ⟨rfl, rfl, rfl, rfl, rfl⟩

/-- C7 witness: a concrete successful first call (empty cache, no abort)
followed by the idempotence conclusion for the second call. -/
theorem convertToSBS_idempotent_witness :
    (convertToSBS (fun _ => "n") [] ⟨false, 0, none, none⟩ "v" ⟨true, 65, 1000⟩
        (fun _ => false)).result = some "v?sbs=true&shift=n" ∧
    (convertToSBS (fun _ => "n")
        (convertToSBS (fun _ => "n") [] ⟨false, 0, none, none⟩ "v"
          ⟨true, 65, 1000⟩ (fun _ => false)).cache
        ⟨false, 0, none, none⟩ "v" ⟨true, 65, 1000⟩ (fun _ => false)).result
      = some "v?sbs=true&shift=n" := by
  have h1 : (convertToSBS (fun _ => "n") [] ⟨false, 0, none, none⟩ "v"
      ⟨true, 65, 1000⟩ (fun _ => false)).result = some "v?sbs=true&shift=n" := by
    decide
  exact ⟨h1, (convertToSBS_idempotent (fun _ => "n") [] ⟨false, 0, none, none⟩
    ⟨false, 0, none, none⟩ "v" ⟨true, 65, 1000⟩ (fun _ => false) (fun _ => false)
    "v?sbs=true&shift=n" h1).1⟩

/-- C10: a `convertToSBS` run that misses the cache and is cancelled (the
abort signal stops the synthetic loop before completion) is atomic: the cache
is exactly as before, the call returns `null`, and the session state ends not
converting, with progress reset to 0, the cancellation message recorded, and
the previous converted URI untouched; moreover any run that changes the cache
must have completed the synthetic progress loop. -/
theorem convertToSBS_abort_atomic (numStr : ℚ → String) (c : ConversionCache)
    (st : SBSConverterState) (uri : String) (o : SBSConverterOptions)
    (ab : ℕ → Bool)
    (hmiss : convHas c (cacheKey numStr uri o) = false)
    (habort : (progressLoop ab).2 = false) :
    (convertToSBS numStr c st uri o ab).cache = c ∧
    (convertToSBS numStr c st uri o ab).result = none ∧
    (convertToSBS numStr c st uri o ab).state.isConverting = false ∧
    (convertToSBS numStr c st uri o ab).state.progress = 0 ∧
    (convertToSBS numStr c st uri o ab).state.error = some "轉換已取消" ∧
    (convertToSBS numStr c st uri o ab).state.convertedUri = st.convertedUri ∧
    ∀ (c2 : ConversionCache) (st2 : SBSConverterState) (uri2 : String)
      (o2 : SBSConverterOptions) (ab2 : ℕ → Bool),
      (convertToSBS numStr c2 st2 uri2 o2 ab2).cache ≠ c2 →
      (progressLoop ab2).2 = true := by
  have hrun : convertToSBS numStr c st uri o ab
      = { cache := c
          state := { st with isConverting := false, error := some "轉換已取消", progress := 0 }
          result := none
          progressEvents := [0] ++ (progressLoop ab).1 } := by
    simp only [convertToSBS]
    rw [if_neg (by rw [hmiss]; simp), if_neg (by rw [habort]; simp)]
  rw [hrun]
  refine ⟨rfl, rfl, rfl, rfl, rfl, rfl, ?_⟩
  intro c2 st2 uri2 o2 ab2 hne
  by_cases hh : convHas c2 (cacheKey numStr uri2 o2) = true
  · exfalso
    apply hne
    simp only [convertToSBS]
    rw [if_pos hh]
  · by_cases hl : (progressLoop ab2).2 = true
    · exact hl
    · exfalso
      apply hne
      simp only [convertToSBS]
      rw [if_neg hh, if_neg hl]

/-- C10 witness: the atomicity conclusions for a concrete cancelled run on the
empty cache with an abort signal set from the start. -/
theorem convertToSBS_abort_atomic_witness :
    convHas [] (cacheKey (fun _ => "n") "v" ⟨true, 65, 1000⟩) = false ∧
    (progressLoop (fun _ => true)).2 = false ∧
    (convertToSBS (fun _ => "n") [] ⟨false, 0, none, none⟩ "v" ⟨true, 65, 1000⟩
        (fun _ => true)).cache = [] ∧
    (convertToSBS (fun _ => "n") [] ⟨false, 0, none, none⟩ "v" ⟨true, 65, 1000⟩
        (fun _ => true)).result = none := by
  have hmiss : convHas [] (cacheKey (fun _ => "n") "v" ⟨true, 65, 1000⟩) = false := rfl
  have habort : (progressLoop (fun _ => true)).2 = false := by decide
  have h := convertToSBS_abort_atomic (fun _ => "n") [] ⟨false, 0, none, none⟩
    "v" ⟨true, 65, 1000⟩ (fun _ => true) hmiss habort
  exact ⟨hmiss, habort, h.1, h.2.1⟩
